import Mathlib

/-!
Verification of the MENTIONSTACK content-engine core logic (app.py):
opportunity scoring, opportunity ranking, the keyword derivation for page
records, the JSON-extraction step of content generation, and the
generation-queue state machine driven by the module-level progress loop.

Python floats are modelled as exact rationals (the scoring logic only
compares against constants that are far from any float-rounding boundary),
Python ints as unbounded integers (Python ints are arbitrary precision),
and Python dict fields accessed with `.get(key, default)` as `Option`
fields read with `getD`.
-/

namespace MSGsc

/-- Python `int(q)` on a float/rational: truncation toward zero
(`int(10.5) = 10`, `int(-10.5) = -10`). -/
def pyInt (q : ℚ) : ℤ := if 0 ≤ q then ⌊q⌋ else ⌈q⌉

/-! ### Opportunity scoring (app.py, `calculate_opportunity_score`, lines 321-367)

A GSC row reaches the scorer as a dict; every field is read with
`row.get(field, default)`, so each field is modelled as an `Option` with
the source's default applied at the read. -/

structure ScoreRow where
  position : Option ℚ
  impressions : Option ℤ
  ctr : Option ℚ
  clicks : Option ℤ
  deriving DecidableEq

/-- Position band of the score (first `if/elif` chain, lines 329-338),
in the source's test order. -/
def positionScore (position : ℚ) : ℤ :=
  if 4 ≤ position ∧ position ≤ 10 then 35
  else if 11 ≤ position ∧ position ≤ 15 then 28
  else if 1 ≤ position ∧ position ≤ 3 then 15
  else if 16 ≤ position ∧ position ≤ 30 then 20
  else 10

/-- Impressions band of the score (lines 341-350). -/
def impressionsScore (impressions : ℤ) : ℤ :=
  if 10000 ≤ impressions then 30
  else if 5000 ≤ impressions then 25
  else if 1000 ≤ impressions then 18
  else if 500 ≤ impressions then 12
  else 5

/-- The expected-CTR dict literal of lines 353-356, as an association list. -/
def expected_ctr_table : List (ℤ × ℚ) :=
  [(1, 28/100), (2, 15/100), (3, 11/100), (4, 8/100), (5, 7/100),
   (6, 5/100), (7, 4/100), (8, 35/1000), (9, 3/100), (10, 25/1000)]

/-- `{...}.get(int(position), 0.02)` (line 356): the table is keyed by the
integer truncation of the position, defaulting to 0.02. -/
def expected_ctr (position : ℚ) : ℚ :=
  (expected_ctr_table.lookup (pyInt position)).getD (2/100)

/-- CTR-gap band of the score (lines 358-365); `0.5` and `0.75` are exact
in binary floating point, so the rational model is exact. -/
def ctrScore (actual_ctr expected : ℚ) : ℤ :=
  if actual_ctr < expected * (1/2) then 25
  else if actual_ctr < expected * (3/4) then 18
  else if actual_ctr < expected then 10
  else 5

/-- `calculate_opportunity_score` (lines 321-367): sum of the three bands,
capped by `min(score, 100)` at the return. Defaults: position 100,
impressions 0, ctr 0. -/
def calculate_opportunity_score (row : ScoreRow) : ℤ :=
  let position := row.position.getD 100
  let impressions := row.impressions.getD 0
  let actual_ctr := row.ctr.getD 0
  min (positionScore position + impressionsScore impressions
      + ctrScore actual_ctr (expected_ctr position)) 100

/-! ### Opportunity ranking (app.py, `prepare_opportunities`, lines 369-411)

`format_data` (lines 152-165) always populates the dimension key,
`clicks`, `impressions`, `ctr` and `position` of every row, so GSC rows
are modelled as complete records. -/

structure QueryRow where
  query : String
  clicks : ℤ
  impressions : ℤ
  ctr : ℚ
  position : ℚ
  deriving DecidableEq

structure PageRow where
  page : String
  clicks : ℤ
  impressions : ℤ
  ctr : ℚ
  position : ℚ
  deriving DecidableEq

/-- The row dict as the scorer sees it (same dict, `Option`-typed reads). -/
def QueryRow.toScoreRow (q : QueryRow) : ScoreRow :=
  ⟨some q.position, some q.impressions, some q.ctr, some q.clicks⟩

def PageRow.toScoreRow (p : PageRow) : ScoreRow :=
  ⟨some p.position, some p.impressions, some p.ctr, some p.clicks⟩

inductive OppType where
  | NEW
  | REFRESH
  deriving DecidableEq

structure Opportunity where
  id : String
  type : OppType
  keyword : String
  page : Option String
  position : ℚ
  impressions : ℤ
  ctr : ℚ
  clicks : ℤ
  score : ℤ
  deriving DecidableEq

/-! Python string primitives used by the page-keyword derivation
(`page_url.split('/')[-1].replace('-', ' ').title()`, line 396). -/

/-- Python `s.split(sep)` for a one-character separator: splits on every
occurrence, keeping empty pieces; always returns at least one piece. -/
def splitCh (c : Char) : List Char → List (List Char)
  | [] => [[]]
  | x :: xs =>
    match splitCh c xs with
    | [] => [[]]
    | h :: t => if x = c then [] :: h :: t else (x :: h) :: t

/-- Python `s.replace('-', ' ')` (one-character pattern). -/
def dashToSpace (s : List Char) : List Char :=
  s.map fun ch => if ch = '-' then ' ' else ch

/-- Python `s.title()` on ASCII text: the first alphabetic character of
each alphabetic run is uppercased, the rest lowercased. -/
def pyTitleAux : Bool → List Char → List Char
  | _, [] => []
  | prevAlpha, ch :: rest =>
    if ch.isAlpha then
      (if prevAlpha then ch.toLower else ch.toUpper) :: pyTitleAux true rest
    else
      ch :: pyTitleAux false rest

def pyTitle (s : List Char) : List Char := pyTitleAux false s

/-- Line 396: last URL path piece, hyphens to spaces, title-cased. -/
def derive_keyword (url : String) : String :=
  String.mk (pyTitle (dashToSpace ((splitCh '/' url.data).getLastD [])))

/-- The opportunity dict built for a query row (lines 379-389). -/
def mkQueryOpp (q : QueryRow) : Opportunity :=
  { id := "query_" ++ q.query
    type := .NEW
    keyword := q.query
    page := none
    position := q.position
    impressions := q.impressions
    ctr := q.ctr
    clicks := q.clicks
    score := calculate_opportunity_score q.toScoreRow }

/-- The opportunity dict built for a page row (lines 394-407). -/
def mkPageOpp (p : PageRow) : Opportunity :=
  { id := "page_" ++ p.page
    type := .REFRESH
    keyword := derive_keyword p.page
    page := some p.page
    position := p.position
    impressions := p.impressions
    ctr := p.ctr
    clicks := p.clicks
    score := calculate_opportunity_score p.toScoreRow }

/-- The `gsc_data` dict (line 826): only the `queries` and `pages` lists
are read by `prepare_opportunities`. -/
structure GSCData where
  queries : List QueryRow
  pages : List PageRow
  deriving DecidableEq

/-- The two accumulation loops of lines 376-407: queries first, then
pages, keeping only rows with `impressions >= 100`. -/
def allOpportunities (d : GSCData) : List Opportunity :=
  (d.queries.filter fun q => decide (100 ≤ q.impressions)).map mkQueryOpp
    ++ (d.pages.filter fun p => decide (100 ≤ p.impressions)).map mkPageOpp

/-- The sort relation of line 410 (`key=lambda x: x['score'], reverse=True`):
`a` may precede `b` when `a`'s score is at least `b`'s. -/
def scoreGE (a b : Opportunity) : Prop := b.score ≤ a.score

instance : DecidableRel scoreGE := fun a b => inferInstanceAs (Decidable (b.score ≤ a.score))

instance : IsTotal Opportunity scoreGE := ⟨fun a b => le_total b.score a.score⟩

instance : IsTrans Opportunity scoreGE := ⟨fun _ _ _ h₁ h₂ => le_trans h₂ h₁⟩

/-- `prepare_opportunities` (lines 369-411). `st.session_state.gsc_data`
is `None` before any pull, so the input is an `Option`; `if not gsc_data:
return []` is the `none` branch. Python's `list.sort` is stable, and
stability is preserved under `reverse=True`, so the sort is modelled by
the stable insertion sort with the descending-score relation. -/
def prepare_opportunities (gsc_data : Option GSCData) : List Opportunity :=
  match gsc_data with
  | none => []
  | some d => (List.insertionSort scoreGE (allOpportunities d)).take 25

/-! ### Scoring bounds -/

theorem positionScore_bounds (p : ℚ) : 10 ≤ positionScore p ∧ positionScore p ≤ 35 := by
  unfold positionScore
  split_ifs <;> norm_num

theorem impressionsScore_bounds (n : ℤ) : 5 ≤ impressionsScore n ∧ impressionsScore n ≤ 30 := by
  unfold impressionsScore
  split_ifs <;> norm_num

theorem ctrScore_bounds (a e : ℚ) : 5 ≤ ctrScore a e ∧ ctrScore a e ≤ 25 := by
  unfold ctrScore
  split_ifs <;> norm_num

/-- The three bands always sum to a value in `[20, 90]`, so the
`min(score, 100)` at the return never clips. -/
theorem score_uncapped (row : ScoreRow) :
    calculate_opportunity_score row
      = positionScore (row.position.getD 100) + impressionsScore (row.impressions.getD 0)
        + ctrScore (row.ctr.getD 0) (expected_ctr (row.position.getD 100))
      ∧ 20 ≤ calculate_opportunity_score row ∧ calculate_opportunity_score row ≤ 90 := by
  have hp := positionScore_bounds (row.position.getD 100)
  have hi := impressionsScore_bounds (row.impressions.getD 0)
  have hc := ctrScore_bounds (row.ctr.getD 0) (expected_ctr (row.position.getD 100))
  simp only [calculate_opportunity_score]
  omega

/-- C2: for every input record with position a float ≥ 0, impressions an
int ≥ 0, and ctr a float in [0,1] (each field possibly missing,
defaulting as documented), `calculate_opportunity_score` returns an
integer in the closed interval [1, 100]. -/
theorem claim_C2_score_range (row : ScoreRow)
    (hpos : ∀ p, row.position = some p → 0 ≤ p)
    (himp : ∀ n, row.impressions = some n → 0 ≤ n)
    (hctr : ∀ c, row.ctr = some c → 0 ≤ c ∧ c ≤ 1) :
    1 ≤ calculate_opportunity_score row ∧ calculate_opportunity_score row ≤ 100 := by
  have h := score_uncapped row
  omega

theorem claim_C2_score_range_witness :
    1 ≤ calculate_opportunity_score ⟨some 5, some 1000, some (1/100), some 3⟩
      ∧ calculate_opportunity_score ⟨some 5, some 1000, some (1/100), some 3⟩ ≤ 100 :=
  claim_C2_score_range ⟨some 5, some 1000, some (1/100), some 3⟩
    (fun p hp => by cases hp; norm_num)
    (fun n hn => by cases hn; norm_num)
    (fun c hc => by cases hc; norm_num)

/-! ### C3: the expected-CTR lookup is keyed by `int(position)` -/

/-- The row of the C3 counterexample: position 10.5 truncates to 10, so
the table value 0.025 (not the default 0.02) is used, and the actual CTR
0.011 falls below 50% of 0.025 (+25) though it is above 50% of 0.02. -/
def c3_row : ScoreRow := ⟨some (21/2), some 0, some (11/1000), none⟩

/-- C3 counterexample: for position 10.5 (strictly greater than 10) the
expected CTR used is the table value 0.025, not the default 0.02 as the
claim states; the full score at `c3_row` is 10 + 5 + 25 = 40, whereas the
claimed rule (expected 0.02, actual 0.011 in [50%, 75%)) would add 18. -/
theorem claim_C3_counterexample :
    expected_ctr (21/2) = 25/1000 ∧ ¬ expected_ctr (21/2) = 2/100
      ∧ calculate_opportunity_score c3_row = 40 := by
  have h105 : pyInt (21/2 : ℚ) = 10 := by norm_num [pyInt]
  have hec : expected_ctr (21/2 : ℚ) = 25/1000 := by
    rw [expected_ctr, h105]
    simp [expected_ctr_table, List.lookup]
  refine ⟨hec, by rw [hec]; norm_num, ?_⟩
  simp only [calculate_opportunity_score, c3_row, Option.getD_some]
  rw [hec]
  norm_num [positionScore, impressionsScore, ctrScore]

theorem expected_ctr_trunc {k : ℤ} {p : ℚ} (h1 : 1 ≤ k) (h3 : (k : ℚ) ≤ p) (h4 : p < k + 1) :
    expected_ctr p = (expected_ctr_table.lookup k).getD (2/100) := by
  have hk0 : (1 : ℚ) ≤ (k : ℚ) := by exact_mod_cast h1
  have h0 : (0 : ℚ) ≤ p := by linarith
  have hk : pyInt p = k := by
    unfold pyInt
    rw [if_pos h0]
    exact Int.floor_eq_iff.mpr ⟨h3, by exact_mod_cast h4⟩
  rw [expected_ctr, hk]

/-- C3 amended: the expected CTR is the table value keyed by the integer
truncation of the position — positions whose truncation is k ∈ 1..10 use
the table value for k (in particular positions in (10, 11) use 0.025) —
and the default 0.02 applies exactly when the position is below 1 or at
least 11; the CTR sub-score then adds 25 / 18 / 10 / 5 at the stated
50% / 75% / 100% thresholds. -/
theorem claim_C3_amended :
    (∀ p : ℚ, 11 ≤ p → expected_ctr p = 2/100)
      ∧ (∀ p : ℚ, p < 1 → expected_ctr p = 2/100)
      ∧ (∀ p : ℚ, 10 < p → p < 11 → expected_ctr p = 25/1000)
      ∧ (∀ (k : ℤ) (p : ℚ), 1 ≤ k → k ≤ 10 → (k : ℚ) ≤ p → p < k + 1 →
          expected_ctr p = (expected_ctr_table.lookup k).getD (2/100))
      ∧ (∀ a e : ℚ, 0 < e →
          (a < e * (1/2) → ctrScore a e = 25)
            ∧ (e * (1/2) ≤ a → a < e * (3/4) → ctrScore a e = 18)
            ∧ (e * (3/4) ≤ a → a < e → ctrScore a e = 10)
            ∧ (e ≤ a → ctrScore a e = 5)) := by
  have hdef : ∀ p : ℚ, (pyInt p < 1 ∨ 10 < pyInt p) → expected_ctr p = 2/100 := by
    intro p hp
    have h1 : (pyInt p == (1 : ℤ)) = false := by simp; omega
    have h2 : (pyInt p == (2 : ℤ)) = false := by simp; omega
    have h3 : (pyInt p == (3 : ℤ)) = false := by simp; omega
    have h4 : (pyInt p == (4 : ℤ)) = false := by simp; omega
    have h5 : (pyInt p == (5 : ℤ)) = false := by simp; omega
    have h6 : (pyInt p == (6 : ℤ)) = false := by simp; omega
    have h7 : (pyInt p == (7 : ℤ)) = false := by simp; omega
    have h8 : (pyInt p == (8 : ℤ)) = false := by simp; omega
    have h9 : (pyInt p == (9 : ℤ)) = false := by simp; omega
    have h10 : (pyInt p == (10 : ℤ)) = false := by simp; omega
    simp [expected_ctr, expected_ctr_table, List.lookup, h1, h2, h3, h4, h5, h6, h7, h8, h9, h10]
  refine ⟨?_, ?_, ?_, ?_, ?_⟩
  · intro p hp
    refine hdef p (Or.inr ?_)
    have h0 : (0 : ℚ) ≤ p := le_trans (by norm_num) hp
    have : (11 : ℤ) ≤ ⌊p⌋ := Int.le_floor.mpr (by exact_mod_cast hp)
    unfold pyInt
    rw [if_pos h0]
    omega
  · intro p hp
    refine hdef p (Or.inl ?_)
    unfold pyInt
    split_ifs with h0
    · exact Int.floor_lt.mpr (by exact_mod_cast hp)
    · have : ⌈p⌉ ≤ 0 := Int.ceil_le.mpr (by exact_mod_cast le_of_not_le h0)
      omega
  · intro p hlo hhi
    have := expected_ctr_trunc (k := 10) (p := p) (by norm_num) (by exact_mod_cast le_of_lt hlo)
      (by push_cast; linarith)
    rw [this]
    simp [expected_ctr_table, List.lookup]
  · intro k p hk1 _ h3 h4
    exact expected_ctr_trunc hk1 h3 h4
  · intro a e he
    refine ⟨?_, ?_, ?_, ?_⟩ <;> intros <;> unfold ctrScore <;> split_ifs <;> first | rfl | linarith

theorem claim_C3_amended_witness :
    expected_ctr 12 = 2/100 ∧ expected_ctr (21/2) = 25/1000
      ∧ ctrScore (11/1000) (25/1000) = 25 :=
  ⟨claim_C3_amended.1 12 (by norm_num),
   claim_C3_amended.2.2.1 (21/2) (by norm_num) (by norm_num),
   (claim_C3_amended.2.2.2.2 (11/1000) (25/1000) (by norm_num)).1 (by norm_num)⟩

/-- C10 (implicit): `calculate_opportunity_score` always lands in
[20, 90] (minimum 10+5+5, maximum 35+30+25), so the explicit cap at 100
never binds (the score equals the uncapped band sum), and the score
depends only on the position, impressions and ctr fields — never on
clicks. -/
theorem claim_C10_implicit_bounds :
    (∀ row : ScoreRow,
        20 ≤ calculate_opportunity_score row ∧ calculate_opportunity_score row ≤ 90)
      ∧ (∀ row : ScoreRow,
          calculate_opportunity_score row
            = positionScore (row.position.getD 100) + impressionsScore (row.impressions.getD 0)
              + ctrScore (row.ctr.getD 0) (expected_ctr (row.position.getD 100)))
      ∧ (∀ row₁ row₂ : ScoreRow, row₁.position = row₂.position →
          row₁.impressions = row₂.impressions → row₁.ctr = row₂.ctr →
          calculate_opportunity_score row₁ = calculate_opportunity_score row₂) := by
  refine ⟨fun row => (score_uncapped row).2, fun row => (score_uncapped row).1, ?_⟩
  intro row₁ row₂ h1 h2 h3
  simp only [calculate_opportunity_score, h1, h2, h3]

theorem claim_C10_implicit_bounds_witness :
    20 ≤ calculate_opportunity_score ⟨none, none, none, none⟩
      ∧ calculate_opportunity_score ⟨some 1, some 1, some 1, some 5⟩
        = calculate_opportunity_score ⟨some 1, some 1, some 1, some 99⟩ :=
  ⟨(claim_C10_implicit_bounds.1 ⟨none, none, none, none⟩).1,
   claim_C10_implicit_bounds.2.2 ⟨some 1, some 1, some 1, some 5⟩
     ⟨some 1, some 1, some 1, some 99⟩ rfl rfl rfl⟩

/-! ### Ranking: sortedness, truncation, stability (C4, C5, C8) -/

theorem filter_orderedInsert_pos (c : ℤ) (a : Opportunity) (ha : a.score = c)
    (l : List Opportunity) :
    (List.orderedInsert scoreGE a l).filter (fun o => decide (o.score = c))
      = a :: l.filter (fun o => decide (o.score = c)) := by
  induction l with
  | nil => simp [List.orderedInsert, ha]
  | cons b l ih =>
    by_cases h : scoreGE a b
    · simp [List.orderedInsert, h, ha]
    · have hb : ¬ b.score = c := by
        unfold scoreGE at h
        omega
      simp [List.orderedInsert, h, ha, hb, ih]

theorem filter_orderedInsert_neg (c : ℤ) (a : Opportunity) (ha : ¬ a.score = c)
    (l : List Opportunity) :
    (List.orderedInsert scoreGE a l).filter (fun o => decide (o.score = c))
      = l.filter (fun o => decide (o.score = c)) := by
  induction l with
  | nil => simp [List.orderedInsert, ha]
  | cons b l ih =>
    by_cases h : scoreGE a b
    · simp [List.orderedInsert, h, ha]
    · simp [List.orderedInsert, h, ha, List.filter_cons, ih]

/-- The stable sort permutes equal-score elements nowhere: for each score
class, the sorted list filters to exactly the input's filtration, in the
input's order. -/
theorem filter_insertionSort (c : ℤ) (l : List Opportunity) :
    (List.insertionSort scoreGE l).filter (fun o => decide (o.score = c))
      = l.filter (fun o => decide (o.score = c)) := by
  induction l with
  | nil => rfl
  | cons a l ih =>
    by_cases ha : a.score = c
    · rw [List.insertionSort, filter_orderedInsert_pos c a ha, ih]
      simp [ha]
    · rw [List.insertionSort, filter_orderedInsert_neg c a ha, ih]
      simp [ha]

/-- C4: the returned opportunity list is sorted non-increasing by score,
has length at most 25, breaks score ties stably in original encounter
order (all query-derived opportunities before page-derived ones, by the
construction of `allOpportunities`): for each score class, the output's
members form a prefix of the candidate list's members in encounter order;
and the output is empty when the input has no records. -/
theorem claim_C4_ranked_list (g : Option GSCData) :
    List.Pairwise (fun a b : Opportunity => b.score ≤ a.score) (prepare_opportunities g)
      ∧ (prepare_opportunities g).length ≤ 25
      ∧ (∀ d, g = some d → ∀ c : ℤ, ∃ t,
          (allOpportunities d).filter (fun o => decide (o.score = c))
            = (prepare_opportunities g).filter (fun o => decide (o.score = c)) ++ t)
      ∧ (g = none → prepare_opportunities g = [])
      ∧ (∀ d, g = some d → d.queries = [] → d.pages = [] → prepare_opportunities g = []) := by
  refine ⟨?_, ?_, ?_, fun h => by subst h; rfl, ?_⟩
  · cases g with
    | none => simp [prepare_opportunities]
    | some d =>
      have hs : List.Sorted scoreGE (List.insertionSort scoreGE (allOpportunities d)) :=
        List.sorted_insertionSort scoreGE (allOpportunities d)
      exact List.Pairwise.sublist (List.take_sublist _ _) hs
  · cases g with
    | none => simp [prepare_opportunities]
    | some d =>
      simp only [prepare_opportunities, List.length_take]
      exact min_le_left _ _
  · intro d hg c
    subst hg
    refine ⟨((List.insertionSort scoreGE (allOpportunities d)).drop 25).filter
      (fun o => decide (o.score = c)), ?_⟩
    rw [← filter_insertionSort c (allOpportunities d)]
    conv_lhs => rw [← List.take_append_drop 25 (List.insertionSort scoreGE (allOpportunities d))]
    rw [List.filter_append]
    rfl
  · intro d hg hq hp
    subst hg
    simp [prepare_opportunities, allOpportunities, hq, hp]

/-- Rows for the C5 example of the spec: impressions 50 and 150. -/
def c5_low : QueryRow := ⟨"low", 0, 50, 0, 1⟩

def c5_high : QueryRow := ⟨"high", 0, 150, 0, 1⟩

/-- C5: `prepare_opportunities` keeps exactly the records whose
impressions reach 100: each such query/page record yields its opportunity
in the candidate list, every candidate comes from such a record, and the
spec's 50/150 example keeps only the 150-impressions record. -/
theorem claim_C5_threshold :
    (∀ d : GSCData,
        (∀ q ∈ d.queries, 100 ≤ q.impressions → mkQueryOpp q ∈ allOpportunities d)
          ∧ (∀ p ∈ d.pages, 100 ≤ p.impressions → mkPageOpp p ∈ allOpportunities d)
          ∧ (∀ o ∈ allOpportunities d,
              (∃ q ∈ d.queries, 100 ≤ q.impressions ∧ o = mkQueryOpp q)
                ∨ (∃ p ∈ d.pages, 100 ≤ p.impressions ∧ o = mkPageOpp p)))
      ∧ allOpportunities ⟨[c5_low, c5_high], []⟩ = [mkQueryOpp c5_high] := by
  constructor
  · intro d
    refine ⟨?_, ?_, ?_⟩
    · intro q hq h
      exact List.mem_append_left _
        (List.mem_map_of_mem _ (List.mem_filter.mpr ⟨hq, by simpa using h⟩))
    · intro p hp h
      exact List.mem_append_right _
        (List.mem_map_of_mem _ (List.mem_filter.mpr ⟨hp, by simpa using h⟩))
    · intro o ho
      rcases List.mem_append.mp ho with h | h
      · rcases List.mem_map.mp h with ⟨q, hq, rfl⟩
        rcases List.mem_filter.mp hq with ⟨hq1, hq2⟩
        exact Or.inl ⟨q, hq1, by simpa using hq2, rfl⟩
      · rcases List.mem_map.mp h with ⟨p, hp, rfl⟩
        rcases List.mem_filter.mp hp with ⟨hp1, hp2⟩
        exact Or.inr ⟨p, hp1, by simpa using hp2, rfl⟩
  · simp [allOpportunities, c5_low, c5_high]

theorem claim_C5_threshold_witness :
    mkQueryOpp c5_high ∈ allOpportunities ⟨[c5_low, c5_high], []⟩ :=
  (claim_C5_threshold.1 ⟨[c5_low, c5_high], []⟩).1 c5_high (by simp) (by norm_num [c5_high])

theorem claim_C4_ranked_list_witness :
    (prepare_opportunities (some ⟨[c5_low, c5_high], []⟩)).length ≤ 25
      ∧ (∃ t, (allOpportunities ⟨[c5_low, c5_high], []⟩).filter
            (fun o => decide (o.score = (mkQueryOpp c5_high).score))
          = (prepare_opportunities (some ⟨[c5_low, c5_high], []⟩)).filter
              (fun o => decide (o.score = (mkQueryOpp c5_high).score)) ++ t)
      ∧ prepare_opportunities none = [] :=
  ⟨(claim_C4_ranked_list (some ⟨[c5_low, c5_high], []⟩)).2.1,
   (claim_C4_ranked_list (some ⟨[c5_low, c5_high], []⟩)).2.2.1 _ rfl _,
   (claim_C4_ranked_list none).2.2.2.1 rfl⟩

/-- A page row for the C8 example of the spec. -/
def c8_page : PageRow := ⟨"https://example.com/best-running-shoes", 0, 500, 1/100, 3⟩

/-- C8: every page record retained by the ranker yields an opportunity
whose id is "page_" plus the URL, whose type is REFRESH and whose keyword
is the URL's last path segment with hyphens replaced by spaces and the
result title-cased; in particular a URL ending in /best-running-shoes
yields "Best Running Shoes". -/
theorem claim_C8_page_keyword :
    (∀ (d : GSCData) (p : PageRow), p ∈ d.pages → 100 ≤ p.impressions →
        ∃ o ∈ allOpportunities d,
          o.id = "page_" ++ p.page ∧ o.type = .REFRESH ∧ o.keyword = derive_keyword p.page)
      ∧ derive_keyword "https://example.com/best-running-shoes" = "Best Running Shoes" := by
  constructor
  · intro d p hp h
    exact ⟨mkPageOpp p,
      List.mem_append_right _
        (List.mem_map_of_mem _ (List.mem_filter.mpr ⟨hp, by simpa using h⟩)),
      rfl, rfl, rfl⟩
  · rfl

theorem claim_C8_page_keyword_witness :
    ∃ o ∈ allOpportunities ⟨[], [c8_page]⟩,
      o.id = "page_" ++ c8_page.page ∧ o.type = .REFRESH
        ∧ o.keyword = derive_keyword c8_page.page :=
  claim_C8_page_keyword.1 ⟨[], [c8_page]⟩ c8_page (by simp) (by norm_num [c8_page])

/-! ### JSON extraction in `call_claude_for_content` (app.py, lines 508-530)

The Anthropic API call is an external collaborator: the model takes the
response text as input. `json.loads` plus the dict shape is likewise
external (an arbitrary JSON parser), modelled by a `parse` parameter; the
`except` branch of the source fires exactly when parsing fails. -/

/-- Python whitespace stripped by `str.strip()` (ASCII). -/
def pyIsSpace (c : Char) : Bool :=
  c == ' ' || c == '\t' || c == '\n' || c == '\r' || c == '\x0b' || c == '\x0c'

/-- Python `s.strip()`. -/
def pyStrip (s : List Char) : List Char :=
  ((s.dropWhile pyIsSpace).reverse.dropWhile pyIsSpace).reverse

/-- Index of the first occurrence of `pat` in the list, if any
(Python `s.find(pat)` restricted to the found case; `none` is -1). -/
def findSub (pat : List Char) : List Char → Option Nat
  | [] => if pat.isEmpty then some 0 else none
  | x :: xs => if pat.isPrefixOf (x :: xs) then some 0 else (findSub pat xs).map (· + 1)

/-- Python slice `s[a:b]` for a non-negative start: a negative end counts
from the end of the list (`-1` drops the last element). -/
def pySlice (s : List Char) (a : Nat) (b : Int) : List Char :=
  let bn : Nat := if b < 0 then ((s.length : Int) + b).toNat else b.toNat
  (s.take bn).drop a

def fenceJson : List Char := "```json".data

def fence : List Char := "```".data

/-- Lines 512-520: if a code-fence marker is present, cut out the text
between it and the next bare fence (or, when no closing fence exists,
`find` returns -1 and the slice drops the final character) and strip it;
otherwise leave the response text unchanged. -/
def extractJsonText (t : List Char) : List Char :=
  match findSub fenceJson t with
  | some i =>
    let a := i + 7
    let b : Int := match findSub fence (t.drop a) with
      | some j => (j : Int) + (a : Int)
      | none => -1
    pyStrip (pySlice t a b)
  | none =>
    match findSub fence t with
    | some i =>
      let a := i + 3
      let b : Int := match findSub fence (t.drop a) with
        | some j => (j : Int) + (a : Int)
        | none => -1
      pyStrip (pySlice t a b)
    | none => t

/-- Python `s.replace(pat, rep)` (left-to-right, non-overlapping), with
the list length as fuel. -/
def replaceSubGo (pat rep : List Char) : Nat → List Char → List Char
  | 0, rest => rest
  | _ + 1, [] => []
  | n + 1, x :: xs =>
    if !pat.isEmpty && pat.isPrefixOf (x :: xs) then
      rep ++ replaceSubGo pat rep n ((x :: xs).drop pat.length)
    else
      x :: replaceSubGo pat rep n xs

def replaceSub (pat rep s : List Char) : List Char := replaceSubGo pat rep s.length s

/-- Line 527: `brief.split('\x5cn')[0].replace('Keyword: ', '')` — the
fallback title synthesized from the brief's first line. -/
def synthTitle (brief : List Char) : List Char :=
  replaceSub "Keyword: ".data [] (brief.takeWhile (fun c => !(c == '\n')))

/-- The structured generation result: the keys of the JSON output format,
each possibly missing (read with `.get` by the caller). -/
structure ContentData where
  title_tag : Option String
  meta_description : Option String
  content : Option String
  deriving DecidableEq

/-- Lines 508-530 of `call_claude_for_content`: fence-strip the response,
try to parse it, and on failure build the raw-text fallback from the
(possibly reassigned) `response_text`. Returns the `(content_data, error)`
pair of the source. -/
def call_claude_for_content (parse : String → Option ContentData)
    (brief response_text : String) : Option ContentData × Option String :=
  let t := String.mk (extractJsonText response_text.data)
  match parse t with
  | some d => (some d, none)
  | none =>
    (some { title_tag := some (String.mk (synthTitle brief.data))
            meta_description := some (String.mk (t.data.take 160))
            content := some t },
     none)

/-- The C9 counterexample response: fenced, but not valid JSON inside. -/
def c9_response : String := "Here you go: ```json\nnot json\n``` done"

/-- C9 counterexample: when the response wraps invalid JSON in code-fence
markers, the fallback body is the fence-stripped text ("not json"), not
the whole raw response as the claim states (`json.loads("not json")`
raises, so the parse collaborator returns `none` there). -/
theorem claim_C9_counterexample :
    (call_claude_for_content (fun _ => none) "Keyword: x" c9_response).1
        = some ⟨some "x", some "not json", some "not json"⟩
      ∧ ¬ ("not json" : String) = c9_response := by
  exact ⟨rfl, by decide⟩

theorem fence_isPrefixOf_of_fenceJson {l : List Char} (h : fenceJson.isPrefixOf l) :
    fence.isPrefixOf l := by
  rw [List.isPrefixOf_iff_prefix] at h ⊢
  exact List.IsPrefix.trans ⟨"json".data, rfl⟩ h

theorem findSub_fenceJson_none {t : List Char} (h : findSub fence t = none) :
    findSub fenceJson t = none := by
  induction t with
  | nil => rfl
  | cons x xs ih =>
    unfold findSub at h ⊢
    by_cases hp : fence.isPrefixOf (x :: xs)
    · simp [hp] at h
    · have h2 : findSub fence xs = none := by
        simp [hp, Option.map_eq_none'] at h
        exact h
      have hpj : ¬ fenceJson.isPrefixOf (x :: xs) := fun hc =>
        hp (fence_isPrefixOf_of_fenceJson hc)
      simp [hpj, Option.map_eq_none', ih h2]

/-- C9 amended: the JSON-extraction step never fails fatally — the error
component is always `none` and a structured result is always returned —
and on parse failure the fallback's body is the fence-stripped response
text (equal to the whole raw response exactly when no fence marker
occurs), with a synthesized title and a meta description of at most 160
characters. -/
theorem claim_C9_amended (parse : String → Option ContentData) (brief t : String) :
    (call_claude_for_content parse brief t).2 = none
      ∧ (∃ d, (call_claude_for_content parse brief t).1 = some d)
      ∧ (parse (String.mk (extractJsonText t.data)) = none →
          (call_claude_for_content parse brief t).1
            = some { title_tag := some (String.mk (synthTitle brief.data)),
                     meta_description := some (String.mk ((extractJsonText t.data).take 160)),
                     content := some (String.mk (extractJsonText t.data)) }
            ∧ (String.mk ((extractJsonText t.data).take 160)).length ≤ 160
            ∧ (findSub fence t.data = none → extractJsonText t.data = t.data)) := by
  have hlen : (String.mk ((extractJsonText t.data).take 160)).length ≤ 160 := by
    show ((extractJsonText t.data).take 160).length ≤ 160
    rw [List.length_take]
    exact min_le_left _ _
  have hraw : findSub fence t.data = none → extractJsonText t.data = t.data := by
    intro hf
    unfold extractJsonText
    rw [findSub_fenceJson_none hf, hf]
  cases hp : parse (String.mk (extractJsonText t.data)) with
  | some d =>
    have he : call_claude_for_content parse brief t = (some d, none) := by
      simp only [call_claude_for_content, hp]
    exact ⟨by rw [he], ⟨d, by rw [he]⟩, fun hc => nomatch hc⟩
  | none =>
    have he : call_claude_for_content parse brief t
        = (some { title_tag := some (String.mk (synthTitle brief.data)),
                  meta_description := some (String.mk ((extractJsonText t.data).take 160)),
                  content := some (String.mk (extractJsonText t.data)) }, none) := by
      simp only [call_claude_for_content, hp]
    exact ⟨by rw [he], ⟨_, by rw [he]⟩, fun _ => ⟨by rw [he], hlen, hraw⟩⟩

theorem claim_C9_amended_witness :
    (call_claude_for_content (fun _ => none) "Keyword: x" "hello").2 = none
      ∧ (call_claude_for_content (fun _ => none) "Keyword: x" "hello").1
          = some ⟨some "x", some "hello", some "hello"⟩ :=
  ⟨(claim_C9_amended (fun _ => none) "Keyword: x" "hello").1,
   ((claim_C9_amended (fun _ => none) "Keyword: x" "hello").2.2 rfl).1⟩

/-! ### Generation-queue state machine (app.py, lines 1050-1056 and 1062-1156)

One `step` is one execution of the module-level progress block in a
Streamlit rerun. The external generation outcome (`call_claude_for_content`
behind `if content_data and not error:`) enters through the action's
`GenResult`; `retry`/`skip` are the user's clicks on the buttons the
error branch renders. The `generation_status` dict holds item statuses
under the item id (missing key reads as `pending`, line 1090) and
started flags under "id_started" (missing reads as absent, line 1099);
both are modelled index-aligned with the queue, since queue items have
distinct ids in a session. The display-only "_msg"/"_error" entries and
the `datetime.now()` creation date are not modelled. -/

inductive ItemStatus where
  | pending
  | generating
  | completed
  | error
  | skipped
  deriving DecidableEq

/-- The `new_content` dict of lines 1112-1121 (sans the external clock's
date field). -/
structure Article where
  id : String
  title : String
  type : OppType
  status : String
  title_tag : String
  meta_description : String
  content : String
  deriving DecidableEq

def mkArticle (n : Nat) (opp : Opportunity) (d : ContentData) : Article :=
  { id := "content_" ++ toString n
    title := opp.keyword
    type := opp.type
    status := "Draft"
    title_tag := d.title_tag.getD opp.keyword
    meta_description := d.meta_description.getD ""
    content := d.content.getD "" }

/-- Outcome of one external generation call, as tested by
`if content_data and not error:` (line 1110): a truthy dict with no
error, or anything else (line 1128's branch). -/
inductive GenResult where
  | success (d : ContentData)
  | failure (e : String)
  deriving DecidableEq

/-- One rerun of the progress block, or a user click available in the
error branch (lines 1140-1148). -/
inductive Action where
  | run (r : GenResult)
  | retry
  | skip
  deriving DecidableEq

structure QState where
  queue : List Opportunity
  status : List ItemStatus
  started : List Bool
  generated : List Article
  inProgress : Bool
  deriving DecidableEq

/-- Line 1067: `completed = len([s for s in generation_status.values() if
s == 'completed'])` (the auxiliary "_msg"/"_started"/"_error" values are
never the string 'completed'). -/
def countCompleted (l : List ItemStatus) : Nat :=
  l.countP (fun st => st == ItemStatus.completed)

def countGenerating (l : List ItemStatus) : Nat :=
  l.countP (fun st => st == ItemStatus.generating)

def defaultOpp : Opportunity := ⟨"", .NEW, "", none, 0, 0, 0, 0, 0⟩

/-- Lines 1089-1148: dispatch on the status of the item at `current_idx`.
`pending` starts generating (lines 1092-1096); `generating` first marks
the started flag (lines 1099-1103), then performs the generation call and
records success (append article, mark completed, lines 1106-1126) or
failure (mark error, lines 1127-1132); `error` waits for the user's
Retry (to pending, line 1143) or Skip (to skipped, line 1147); a
`completed` or `skipped` item at the current index matches no branch. -/
def stepAt (s : QState) (a : Action) (cnt : Nat) : QState :=
  match s.status.getD cnt .pending, a with
  | .pending, _ => { s with status := s.status.set cnt .generating }
  | .generating, .run r =>
    if s.started.getD cnt false then
      match r with
      | .success d =>
        { s with
            status := s.status.set cnt .completed
            started := s.started.set cnt false
            generated := s.generated
              ++ [mkArticle s.generated.length (s.queue.getD cnt defaultOpp) d] }
      | .failure _ =>
        { s with
            status := s.status.set cnt .error
            started := s.started.set cnt false }
    else
      { s with started := s.started.set cnt true }
  | .generating, .retry => s
  | .generating, .skip => s
  | .error, .retry => { s with status := s.status.set cnt .pending }
  | .error, .skip => { s with status := s.status.set cnt .skipped }
  | .error, .run _ => s
  | .completed, _ => s
  | .skipped, _ => s

/-- Lines 1062-1156: the whole progress block. Guarded by
`generation_in_progress and generation_queue` (line 1062); the current
index is the count of completed statuses (line 1068); when it reaches the
queue length the batch is finished: the flag is dropped and the queue and
status map are cleared (lines 1151-1153), keeping only
`generated_content`. -/
def step (s : QState) (a : Action) : QState :=
  if s.inProgress = true ∧ s.queue ≠ [] then
    if countCompleted s.status < s.queue.length then
      stepAt s a (countCompleted s.status)
    else
      { s with inProgress := false, queue := [], status := [], started := [] }
  else s

/-- Lines 1050-1056: confirming the modal moves the pending selection
into the queue with an empty status map (all items read as pending) and
raises the in-progress flag. -/
def startBatch (items : List Opportunity) (prior : List Article) : QState :=
  { queue := items
    status := List.replicate items.length .pending
    started := List.replicate items.length false
    generated := prior
    inProgress := true }

def StepRel (s s' : QState) : Prop := ∃ a, step s a = s'

def Reaches (s s' : QState) : Prop := Relation.ReflTransGen StepRel s s'

theorem reaches_step (s : QState) (a : Action) : Reaches s (step s a) :=
  Relation.ReflTransGen.single ⟨a, rfl⟩

/-! ### List access lemmas for the status map -/

theorem getD_set_self {α : Type} (l : List α) (i : Nat) (x d : α) (h : i < l.length) :
    (l.set i x).getD i d = x := by
  rw [List.getD_eq_getElem?_getD, List.getElem?_set_self h]
  rfl

theorem getD_set_ne {α : Type} (l : List α) {i j : Nat} (x d : α) (h : i ≠ j) :
    (l.set i x).getD j d = l.getD j d := by
  rw [List.getD_eq_getElem?_getD, List.getElem?_set_ne h, ← List.getD_eq_getElem?_getD]

theorem getD_of_len_le {α : Type} (l : List α) {i : Nat} (d : α) (h : l.length ≤ i) :
    l.getD i d = d := by
  rw [List.getD_eq_getElem?_getD, List.getElem?_eq_none h]
  rfl

theorem getD_eq_getElem {α : Type} (l : List α) {i : Nat} (d : α) (h : i < l.length) :
    l.getD i d = l[i] := by
  rw [List.getD_eq_getElem?_getD, List.getElem?_eq_getElem h]
  rfl

theorem getD_mem {α : Type} (l : List α) {i : Nat} (d : α) (h : i < l.length) :
    l.getD i d ∈ l := by
  rw [getD_eq_getElem l d h]
  exact List.getElem_mem h

theorem countCompleted_le_length (l : List ItemStatus) : countCompleted l ≤ l.length :=
  List.countP_le_length _

theorem countCompleted_set_stay (l : List ItemStatus) {i : Nat} {x : ItemStatus}
    (h : i < l.length) (hold : l.getD i .pending ≠ .completed) (hnew : x ≠ .completed) :
    countCompleted (l.set i x) = countCompleted l := by
  rw [countCompleted, List.countP_set _ _ _ _ h]
  rw [getD_eq_getElem l .pending h] at hold
  simp [hold, hnew, countCompleted]

theorem countCompleted_set_done (l : List ItemStatus) {i : Nat}
    (h : i < l.length) (hold : l.getD i .pending ≠ .completed) :
    countCompleted (l.set i .completed) = countCompleted l + 1 := by
  rw [countCompleted, List.countP_set _ _ _ _ h]
  rw [getD_eq_getElem l .pending h] at hold
  simp [hold, countCompleted]

/-- Downward closure: everything before a non-pending status is completed.
This is the core shape invariant of the status list. -/
def DC (l : List ItemStatus) : Prop :=
  ∀ i j, i < j → j < l.length → l.getD j .pending ≠ .pending → l.getD i .pending = .completed

/-- A downward-closed status list is: `completed` exactly below the
completed count, arbitrary (but not completed) at the count, `pending`
above it. -/
theorem statusShape (l : List ItemStatus) (hdc : DC l) :
    (∀ i, i < countCompleted l → l.getD i .pending = .completed)
      ∧ (∀ i, countCompleted l < i → l.getD i .pending = .pending)
      ∧ (countCompleted l < l.length → l.getD (countCompleted l) .pending ≠ .completed) := by
  induction l with
  | nil =>
    refine ⟨fun i h => absurd h (by simp [countCompleted]), fun i _ => rfl, fun h => ?_⟩
    simp [countCompleted] at h
  | cons x xs ih =>
    have hdcx : DC xs := by
      intro i j hij hj hne
      have := hdc (i + 1) (j + 1) (by omega) (by simpa using Nat.succ_lt_succ hj)
        (by simpa using hne)
      simpa using this
    have ihx := ih hdcx
    by_cases hx : x = ItemStatus.completed
    · subst hx
      have hcount : countCompleted (ItemStatus.completed :: xs) = countCompleted xs + 1 := by
        simp [countCompleted, List.countP_cons]
      refine ⟨fun i hi => ?_, fun i hi => ?_, fun hlen => ?_⟩
      · cases i with
        | zero => rfl
        | succ i' =>
          rw [hcount] at hi
          simpa using ihx.1 i' (by omega)
      · rw [hcount] at hi
        cases i with
        | zero => omega
        | succ i' => simpa using ihx.2.1 i' (by omega)
      · rw [hcount] at hlen ⊢
        simpa using ihx.2.2 (by simpa using hlen)
    · have hxs : ∀ j, xs.getD j .pending = .pending := by
        intro j
        by_contra hne
        have hj : j < xs.length := by
          by_contra h'
          rw [getD_of_len_le xs _ (le_of_not_lt h')] at hne
          exact hne rfl
        have h0 := hdc 0 (j + 1) (by omega) (by simpa using Nat.succ_lt_succ hj)
          (by simpa using hne)
        simp at h0
        exact hx h0
      have hc0 : countCompleted xs = 0 := by
        rw [countCompleted, List.countP_eq_zero]
        intro a ha
        rcases List.mem_iff_getElem.mp ha with ⟨j, hj, rfl⟩
        rw [← getD_eq_getElem xs .pending hj, hxs j]
        simp
      have hcount : countCompleted (x :: xs) = 0 := by
        rw [countCompleted, List.countP_cons]
        have hxf : (x == ItemStatus.completed) = false := by simpa using hx
        rw [hxf]
        simpa [countCompleted] using hc0
      refine ⟨fun i hi => absurd hi (by omega), fun i hi => ?_, fun _ => ?_⟩
      · rw [hcount] at hi
        cases i with
        | zero => omega
        | succ i' => simpa using hxs i'
      · rw [hcount]
        simpa using hx

/-- At most one index can satisfy a predicate that the shape confines to
the single current position. -/
theorem countP_le_one_of_unique (p : ItemStatus → Bool) (l : List ItemStatus)
    (h : ∀ i j, i < l.length → j < l.length →
      p (l.getD i .pending) → p (l.getD j .pending) → i = j) :
    l.countP p ≤ 1 := by
  induction l with
  | nil => simp
  | cons x xs ih =>
    rw [List.countP_cons]
    by_cases hx : p x
    · have hzero : xs.countP p = 0 := by
        rw [List.countP_eq_zero]
        intro a ha
        rcases List.mem_iff_getElem.mp ha with ⟨j, hj, rfl⟩
        intro hpa
        have : (0 : Nat) = j + 1 := h 0 (j + 1) (by simp) (by simpa using Nat.succ_lt_succ hj)
          (by simpa using hx) (by rw [← getD_eq_getElem xs .pending hj] at hpa; simpa using hpa)
        omega
      simp [hx, hzero]
    · have hx' : ∀ i j, i < xs.length → j < xs.length →
          p (xs.getD i .pending) → p (xs.getD j .pending) → i = j := by
        intro i j hi hj hpi hpj
        have := h (i + 1) (j + 1) (by simpa using Nat.succ_lt_succ hi)
          (by simpa using Nat.succ_lt_succ hj) (by simpa using hpi) (by simpa using hpj)
        omega
      simp [hx]
      exact ih hx'

/-- The session invariant of the progress loop. -/
def Inv (s : QState) : Prop :=
  s.status.length = s.queue.length
    ∧ s.started.length = s.queue.length
    ∧ (s.inProgress = false → s.status = [] ∧ s.queue = [])
    ∧ DC s.status
    ∧ (∀ i, i < s.started.length → s.status.getD i .pending ≠ .generating →
        s.started.getD i false = false)

theorem inv_startBatch (items : List Opportunity) (prior : List Article) :
    Inv (startBatch items prior) := by
  refine ⟨by simp [startBatch], by simp [startBatch], fun h => by simp [startBatch] at h,
    ?_, ?_⟩
  · intro i j hij hj hne
    exfalso
    apply hne
    simp only [startBatch] at hj ⊢
    rw [getD_eq_getElem _ _ (by simpa using hj)]
    simp
  · intro i hi _
    simp only [startBatch] at hi ⊢
    rw [getD_eq_getElem _ _ (by simpa using hi)]
    simp

/-- Setting the current position (to anything) preserves downward
closure: everything strictly below the completed count stays completed,
everything strictly above stays pending. -/
theorem dc_set (l : List ItemStatus) (x : ItemStatus) (hdc : DC l) :
    DC (l.set (countCompleted l) x) := by
  obtain ⟨h1, h2, _⟩ := statusShape l hdc
  intro i j hij hj hne
  rw [List.length_set] at hj
  by_cases hjc : j = countCompleted l
  · have hic : countCompleted l ≠ i := by omega
    rw [getD_set_ne l x .pending hic]
    exact h1 i (by omega)
  · rw [getD_set_ne l x .pending (fun hh => hjc hh.symm)] at hne
    have hjlt : j < countCompleted l := by
      by_contra hge
      exact hne (h2 j (by omega))
    have hic : countCompleted l ≠ i := by omega
    rw [getD_set_ne l x .pending hic]
    exact h1 i (by omega)

theorem Inv.mk' {q : List Opportunity} {st : List ItemStatus} {sd : List Bool}
    {g : List Article} {ip : Bool}
    (e1 : st.length = q.length) (e2 : sd.length = q.length)
    (e3 : ip = false → st = [] ∧ q = [])
    (e4 : DC st)
    (e5 : ∀ i, i < sd.length → st.getD i .pending ≠ .generating → sd.getD i false = false) :
    Inv ⟨q, st, sd, g, ip⟩ :=
  ⟨e1, e2, e3, e4, e5⟩

theorem inv_step (s : QState) (a : Action) (h : Inv s) : Inv (step s a) := by
  obtain ⟨hl1, hl2, hl3, hdc, hstart⟩ := h
  unfold step
  by_cases hg : s.inProgress = true ∧ s.queue ≠ []
  · rw [if_pos hg]
    by_cases hcnt : countCompleted s.status < s.queue.length
    · rw [if_pos hcnt]
      have hclen : countCompleted s.status < s.status.length := by rw [hl1]; exact hcnt
      have hipt : s.inProgress = true := hg.1
      have hoff : ¬ s.inProgress = false := by rw [hipt]; simp
      unfold stepAt
      split
      · -- pending: start generating
        refine Inv.mk' (by simp [hl1]) hl2 (fun hf => absurd hf hoff)
          (dc_set _ _ hdc) ?_
        intro i hi hne
        by_cases hic : i = countCompleted s.status
        · subst hic
          exact absurd (getD_set_self _ _ _ _ hclen) hne
        · rw [getD_set_ne _ _ _ (fun hh => hic hh.symm)] at hne
          exact hstart i hi hne
      · -- generating: run
        rename_i heq
        split
        · -- already started: the external call resolves
          split
          · -- success: completed, article appended
            refine Inv.mk' (by simp [hl1]) (by simp [hl2]) (fun hf => absurd hf hoff)
              (dc_set _ _ hdc) ?_
            intro i hi hne
            simp only [List.length_set] at hi
            by_cases hic : i = countCompleted s.status
            · subst hic
              exact getD_set_self _ _ _ _ (by rw [hl2, ← hl1]; exact hclen)
            · rw [getD_set_ne _ _ _ (fun hh => hic hh.symm)] at hne
              rw [getD_set_ne _ _ _ (fun hh => hic hh.symm)]
              exact hstart i hi hne
          · -- failure: error
            refine Inv.mk' (by simp [hl1]) (by simp [hl2]) (fun hf => absurd hf hoff)
              (dc_set _ _ hdc) ?_
            intro i hi hne
            simp only [List.length_set] at hi
            by_cases hic : i = countCompleted s.status
            · subst hic
              exact getD_set_self _ _ _ _ (by rw [hl2, ← hl1]; exact hclen)
            · rw [getD_set_ne _ _ _ (fun hh => hic hh.symm)] at hne
              rw [getD_set_ne _ _ _ (fun hh => hic hh.symm)]
              exact hstart i hi hne
        · -- not yet started: mark the started flag
          refine Inv.mk' hl1 (by simp [hl2]) (fun hf => absurd hf hoff) hdc ?_
          intro i hi hne
          simp only [List.length_set] at hi
          by_cases hic : i = countCompleted s.status
          · subst hic
            exact absurd heq hne
          · rw [getD_set_ne _ _ _ (fun hh => hic hh.symm)]
            exact hstart i hi hne
      · -- generating + retry: no-op
        exact ⟨hl1, hl2, hl3, hdc, hstart⟩
      · -- generating + skip: no-op
        exact ⟨hl1, hl2, hl3, hdc, hstart⟩
      · -- error + retry: back to pending
        rename_i heq
        refine Inv.mk' (by simp [hl1]) hl2 (fun hf => absurd hf hoff)
          (dc_set _ _ hdc) ?_
        intro i hi hne
        by_cases hic : i = countCompleted s.status
        · subst hic
          exact hstart _ hi (by rw [heq]; simp)
        · rw [getD_set_ne _ _ _ (fun hh => hic hh.symm)] at hne
          exact hstart i hi hne
      · -- error + skip: terminal skipped
        rename_i heq
        refine Inv.mk' (by simp [hl1]) hl2 (fun hf => absurd hf hoff)
          (dc_set _ _ hdc) ?_
        intro i hi hne
        by_cases hic : i = countCompleted s.status
        · subst hic
          exact hstart _ hi (by rw [heq]; simp)
        · rw [getD_set_ne _ _ _ (fun hh => hic hh.symm)] at hne
          exact hstart i hi hne
      · -- error + run: no-op
        exact ⟨hl1, hl2, hl3, hdc, hstart⟩
      · -- completed at the current index: no branch fires
        exact ⟨hl1, hl2, hl3, hdc, hstart⟩
      · -- skipped at the current index: no branch fires
        exact ⟨hl1, hl2, hl3, hdc, hstart⟩
    · rw [if_neg hcnt]
      refine Inv.mk' rfl rfl (fun _ => ⟨rfl, rfl⟩) ?_ ?_
      · intro i j _ hj _
        simp at hj
      · intro i hi _
        simp at hi
  · rw [if_neg hg]
    exact ⟨hl1, hl2, hl3, hdc, hstart⟩

theorem inv_reaches {s0 s : QState} (hinv : Inv s0) (h : Reaches s0 s) : Inv s := by
  induction h with
  | refl => exact hinv
  | tail _ hbc ih =>
    obtain ⟨a, ha⟩ := hbc
    exact ha ▸ inv_step _ a ih

/-! ### Step characterizations for the active branch -/

theorem step_eq_stepAt {s : QState} (hip : s.inProgress = true) (hq : s.queue ≠ [])
    (hlt : countCompleted s.status < s.queue.length) (a : Action) :
    step s a = stepAt s a (countCompleted s.status) := by
  unfold step
  rw [if_pos ⟨hip, hq⟩, if_pos hlt]

theorem step_run_pending {s : QState} (a : Action) (hip : s.inProgress = true)
    (hq : s.queue ≠ []) (hlt : countCompleted s.status < s.queue.length)
    (hcur : s.status.getD (countCompleted s.status) .pending = .pending) :
    step s a = { s with status := s.status.set (countCompleted s.status) .generating } := by
  rw [step_eq_stepAt hip hq hlt]
  unfold stepAt
  rw [hcur]

theorem step_run_generating_fresh {s : QState} (r : GenResult) (hip : s.inProgress = true)
    (hq : s.queue ≠ []) (hlt : countCompleted s.status < s.queue.length)
    (hcur : s.status.getD (countCompleted s.status) .pending = .generating)
    (hst : s.started.getD (countCompleted s.status) false = false) :
    step s (.run r) = { s with started := s.started.set (countCompleted s.status) true } := by
  rw [step_eq_stepAt hip hq hlt]
  unfold stepAt
  rw [hcur, hst]
  rfl

theorem step_run_generating_success {s : QState} (d : ContentData) (hip : s.inProgress = true)
    (hq : s.queue ≠ []) (hlt : countCompleted s.status < s.queue.length)
    (hcur : s.status.getD (countCompleted s.status) .pending = .generating)
    (hst : s.started.getD (countCompleted s.status) false = true) :
    step s (.run (.success d))
      = { s with
            status := s.status.set (countCompleted s.status) .completed
            started := s.started.set (countCompleted s.status) false
            generated := s.generated
              ++ [mkArticle s.generated.length
                    (s.queue.getD (countCompleted s.status) defaultOpp) d] } := by
  rw [step_eq_stepAt hip hq hlt]
  unfold stepAt
  rw [hcur, hst]
  rfl

theorem step_run_generating_failure {s : QState} (e : String) (hip : s.inProgress = true)
    (hq : s.queue ≠ []) (hlt : countCompleted s.status < s.queue.length)
    (hcur : s.status.getD (countCompleted s.status) .pending = .generating)
    (hst : s.started.getD (countCompleted s.status) false = true) :
    step s (.run (.failure e))
      = { s with
            status := s.status.set (countCompleted s.status) .error
            started := s.started.set (countCompleted s.status) false } := by
  rw [step_eq_stepAt hip hq hlt]
  unfold stepAt
  rw [hcur, hst]
  rfl

theorem step_error_retry {s : QState} (hip : s.inProgress = true)
    (hq : s.queue ≠ []) (hlt : countCompleted s.status < s.queue.length)
    (hcur : s.status.getD (countCompleted s.status) .pending = .error) :
    step s .retry = { s with status := s.status.set (countCompleted s.status) .pending } := by
  rw [step_eq_stepAt hip hq hlt]
  unfold stepAt
  rw [hcur]

theorem step_error_skip {s : QState} (hip : s.inProgress = true)
    (hq : s.queue ≠ []) (hlt : countCompleted s.status < s.queue.length)
    (hcur : s.status.getD (countCompleted s.status) .pending = .error) :
    step s .skip = { s with status := s.status.set (countCompleted s.status) .skipped } := by
  rw [step_eq_stepAt hip hq hlt]
  unfold stepAt
  rw [hcur]

theorem step_error_run {s : QState} (r : GenResult) (hip : s.inProgress = true)
    (hq : s.queue ≠ []) (hlt : countCompleted s.status < s.queue.length)
    (hcur : s.status.getD (countCompleted s.status) .pending = .error) :
    step s (.run r) = s := by
  rw [step_eq_stepAt hip hq hlt]
  unfold stepAt
  rw [hcur]

/-- From the invariant, an item in `error` status is exactly the current
item, inside a live in-progress batch, with its started flag down. -/
theorem inv_error_at {s : QState} (hinv : Inv s) {i : Nat}
    (he : s.status.getD i .pending = .error) :
    i = countCompleted s.status
      ∧ i < s.status.length
      ∧ s.status.length = s.queue.length
      ∧ s.started.length = s.queue.length
      ∧ s.started.getD i false = false
      ∧ s.inProgress = true
      ∧ s.queue ≠ [] := by
  obtain ⟨hl1, hl2, hl3, hdc, hstart⟩ := hinv
  obtain ⟨h1, h2, _⟩ := statusShape s.status hdc
  have hi : i < s.status.length := by
    by_contra hgt
    rw [getD_of_len_le _ _ (le_of_not_lt hgt)] at he
    cases he
  have hic : i = countCompleted s.status := by
    rcases lt_trichotomy i (countCompleted s.status) with h | h | h
    · rw [h1 i h] at he
      cases he
    · exact h
    · rw [h2 i h] at he
      cases he
  have hstarted : s.started.getD i false = false :=
    hstart i (by rw [hl2, ← hl1]; exact hi) (by rw [he]; simp)
  have hip : s.inProgress = true := by
    rcases Bool.eq_false_or_eq_true s.inProgress with hb | hb
    · exact hb
    · obtain ⟨hs0, _⟩ := hl3 hb
      rw [hs0] at hi
      simp at hi
  have hq : s.queue ≠ [] := by
    intro hq0
    rw [hq0] at hl1
    simp at hl1
    rw [hl1] at hi
    simp at hi
  exact ⟨hic, hi, hl1, hl2, hstarted, hip, hq⟩

/-- C6: in every state reachable from a freshly confirmed batch, at most
one queue item is generating, and an item is only ever started (left
`pending`) after its predecessor has completed — so the loop never works
on item i+1 before item i is terminal. -/
theorem claim_C6_sequential (items : List Opportunity) (prior : List Article) (s : QState)
    (hr : Reaches (startBatch items prior) s) :
    countGenerating s.status ≤ 1
      ∧ (∀ i, i + 1 < s.status.length → s.status.getD (i + 1) .pending ≠ .pending →
          s.status.getD i .pending = .completed) := by
  have hinv := inv_reaches (inv_startBatch items prior) hr
  obtain ⟨hl1, hl2, hl3, hdc, hstart⟩ := hinv
  obtain ⟨h1, h2, _⟩ := statusShape s.status hdc
  constructor
  · apply countP_le_one_of_unique
    intro i j hi hj hpi hpj
    have hgi : s.status.getD i .pending = .generating := by simpa using hpi
    have hgj : s.status.getD j .pending = .generating := by simpa using hpj
    have hieq : i = countCompleted s.status := by
      rcases lt_trichotomy i (countCompleted s.status) with h | h | h
      · rw [h1 i h] at hgi
        cases hgi
      · exact h
      · rw [h2 i h] at hgi
        cases hgi
    have hjeq : j = countCompleted s.status := by
      rcases lt_trichotomy j (countCompleted s.status) with h | h | h
      · rw [h1 j h] at hgj
        cases hgj
      · exact h
      · rw [h2 j h] at hgj
        cases hgj
    omega
  · intro i hi hne
    exact hdc i (i + 1) (by omega) hi hne

theorem claim_C6_sequential_witness :
    countGenerating (startBatch [defaultOpp, defaultOpp, defaultOpp] []).status ≤ 1
      ∧ (∀ i, i + 1 < (startBatch [defaultOpp, defaultOpp, defaultOpp] []).status.length →
          (startBatch [defaultOpp, defaultOpp, defaultOpp] []).status.getD (i + 1) .pending
              ≠ .pending →
          (startBatch [defaultOpp, defaultOpp, defaultOpp] []).status.getD i .pending
            = .completed) :=
  claim_C6_sequential [defaultOpp, defaultOpp, defaultOpp] []
    (startBatch [defaultOpp, defaultOpp, defaultOpp] []) Relation.ReflTransGen.refl

/-! ### C1: completion is never reached once an item is skipped -/

def demoOpp (k : String) : Opportunity :=
  ⟨"query_" ++ k, .NEW, k, none, 5, 1000, 0, 10, 50⟩

def c1_queue : List Opportunity := [demoOpp "alpha", demoOpp "beta", demoOpp "gamma"]

def c1_d : ContentData := ⟨none, none, none⟩

/-- A reachable all-terminal state: items 1 and 2 completed, item 3
skipped after an error. `completed` counts 2, so `current_idx = 2` points
at the skipped item forever. -/
def c1_stuck : QState :=
  { queue := c1_queue
    status := [.completed, .completed, .skipped]
    started := [false, false, false]
    generated := [mkArticle 0 (demoOpp "alpha") c1_d, mkArticle 1 (demoOpp "beta") c1_d]
    inProgress := true }

/-- The same batch with every item completed, for contrast. -/
def c1_done : QState :=
  { queue := c1_queue
    status := [.completed, .completed, .completed]
    started := [false, false, false]
    generated := []
    inProgress := true }

theorem c1_stuck_reachable : Reaches (startBatch c1_queue []) c1_stuck :=
  Relation.ReflTransGen.head ⟨.run (.success c1_d), rfl⟩
    (Relation.ReflTransGen.head ⟨.run (.success c1_d), rfl⟩
      (Relation.ReflTransGen.head ⟨.run (.success c1_d), rfl⟩
        (Relation.ReflTransGen.head ⟨.run (.success c1_d), rfl⟩
          (Relation.ReflTransGen.head ⟨.run (.success c1_d), rfl⟩
            (Relation.ReflTransGen.head ⟨.run (.success c1_d), rfl⟩
              (Relation.ReflTransGen.head ⟨.run (.success c1_d), rfl⟩
                (Relation.ReflTransGen.head ⟨.run (.success c1_d), rfl⟩
                  (Relation.ReflTransGen.head ⟨.run (.failure "boom"), rfl⟩
                    (Relation.ReflTransGen.single ⟨.skip, rfl⟩)))))))))

/-- C1 (code bug): from the reachable state `c1_stuck`, in which every
queue item is terminal (completed or skipped), the driving loop never
reaches overall completion: every action is a no-op (the current index —
the count of completed items — points at the skipped item, which matches
no branch, and the clearing branch requires the completed count to equal
the queue length), so the queue and status map are never cleared. By
contrast, from the all-completed `c1_done` one step clears queue and
status and drops the in-progress flag, keeping only the article list. -/
theorem claim_C1_completion_bug :
    Reaches (startBatch c1_queue []) c1_stuck
      ∧ (∀ st ∈ c1_stuck.status, st = ItemStatus.completed ∨ st = ItemStatus.skipped)
      ∧ (∀ a, step c1_stuck a = c1_stuck)
      ∧ (∀ s', Reaches c1_stuck s' → s' = c1_stuck)
      ∧ c1_stuck.inProgress = true
      ∧ c1_stuck.queue ≠ []
      ∧ (∀ a, step c1_done a
          = { c1_done with inProgress := false, queue := [], status := [], started := [] }) := by
  have hfix : ∀ a, step c1_stuck a = c1_stuck := by
    intro a
    cases a <;> rfl
  refine ⟨c1_stuck_reachable, by decide, hfix, ?_, rfl, by decide, ?_⟩
  · intro s' h
    induction h with
    | refl => rfl
    | tail _ hbc ih =>
      obtain ⟨a, ha⟩ := hbc
      rw [← ha, ih]
      exact hfix a
  · intro a
    cases a <;> rfl

theorem claim_C1_completion_bug_witness :
    step c1_stuck Action.skip = c1_stuck
      ∧ step c1_stuck (Action.run (.success c1_d)) = c1_stuck :=
  ⟨claim_C1_completion_bug.2.2.1 Action.skip,
   claim_C1_completion_bug.2.2.1 (Action.run (.success c1_d))⟩

/-! ### C7: transitions out of the error status -/

/-- C7: in any reachable state, an item in `error` status goes back to
`pending` on the user's retry and to terminal `skipped` on the user's
skip; a plain rerun (any generation outcome) leaves the state unchanged,
so these two user actions are the only transitions out of `error`; and
after a retry, three reruns with a successful generation outcome drive
the item through `generating` to `completed`, appending exactly one
article. -/
theorem claim_C7_error_transitions (items : List Opportunity) (prior : List Article)
    (s : QState) (i : Nat) (hr : Reaches (startBatch items prior) s)
    (he : s.status.getD i .pending = .error) :
    (step s .retry).status.getD i .pending = .pending
      ∧ (step s .skip).status.getD i .pending = .skipped
      ∧ (∀ r, step s (.run r) = s)
      ∧ (∀ d : ContentData,
          (step (step (step (step s .retry) (.run (.success d))) (.run (.success d)))
              (.run (.success d))).status.getD i .pending = .completed
            ∧ (step (step (step (step s .retry) (.run (.success d))) (.run (.success d)))
                (.run (.success d))).generated.length = s.generated.length + 1) := by
  have hinv := inv_reaches (inv_startBatch items prior) hr
  obtain ⟨hic, hilen, hl1, hl2, hstarted, hip, hq⟩ := inv_error_at hinv he
  have hlt : countCompleted s.status < s.queue.length := by omega
  have hcur : s.status.getD (countCompleted s.status) .pending = .error := by
    rw [← hic]
    exact he
  have e1 : step s .retry = { s with status := s.status.set i ItemStatus.pending } := by
    rw [step_error_retry hip hq hlt hcur, ← hic]
  have hcntA1 : countCompleted (s.status.set i ItemStatus.pending) = i := by
    rw [countCompleted_set_stay s.status hilen (by rw [he]; simp) (by simp)]
    omega
  have hcntA2 : countCompleted (s.status.set i ItemStatus.generating) = i := by
    rw [countCompleted_set_stay s.status hilen (by rw [he]; simp) (by simp)]
    omega
  refine ⟨?_, ?_, ?_, ?_⟩
  · rw [e1]
    exact getD_set_self _ _ _ _ hilen
  · have e2 : step s .skip = { s with status := s.status.set i ItemStatus.skipped } := by
      rw [step_error_skip hip hq hlt hcur, ← hic]
    rw [e2]
    exact getD_set_self _ _ _ _ hilen
  · intro r
    exact step_error_run r hip hq hlt hcur
  · intro d
    -- stage 1: after retry
    have hstat1 : (step s .retry).status = s.status.set i ItemStatus.pending := by rw [e1]
    have hqueue1 : (step s .retry).queue = s.queue := by rw [e1]
    have hstart1 : (step s .retry).started = s.started := by rw [e1]
    have hgen1 : (step s .retry).generated = s.generated := by rw [e1]
    have hip1 : (step s .retry).inProgress = true := by
      rw [e1]
      exact hip
    have hq1 : (step s .retry).queue ≠ [] := by
      rw [hqueue1]
      exact hq
    have hlt1 : countCompleted (step s .retry).status < (step s .retry).queue.length := by
      rw [hstat1, hqueue1, hcntA1]
      omega
    have hcur1 : (step s .retry).status.getD (countCompleted (step s .retry).status) .pending
        = .pending := by
      rw [hstat1, hcntA1]
      exact getD_set_self _ _ _ _ hilen
    have e2 := step_run_pending (.run (.success d)) hip1 hq1 hlt1 hcur1
    -- stage 2: generating
    have hstat2 : (step (step s .retry) (.run (.success d))).status
        = s.status.set i ItemStatus.generating := by
      rw [e2]
      show (step s .retry).status.set (countCompleted (step s .retry).status)
        ItemStatus.generating = _
      rw [hstat1, hcntA1, List.set_set]
    have hqueue2 : (step (step s .retry) (.run (.success d))).queue = s.queue := by
      rw [e2]
      show (step s .retry).queue = s.queue
      exact hqueue1
    have hstart2 : (step (step s .retry) (.run (.success d))).started = s.started := by
      rw [e2]
      show (step s .retry).started = s.started
      exact hstart1
    have hgen2 : (step (step s .retry) (.run (.success d))).generated = s.generated := by
      rw [e2]
      show (step s .retry).generated = s.generated
      exact hgen1
    have hip2 : (step (step s .retry) (.run (.success d))).inProgress = true := by
      rw [e2]
      show (step s .retry).inProgress = true
      exact hip1
    have hq2 : (step (step s .retry) (.run (.success d))).queue ≠ [] := by
      rw [hqueue2]
      exact hq
    have hlt2 : countCompleted (step (step s .retry) (.run (.success d))).status
        < (step (step s .retry) (.run (.success d))).queue.length := by
      rw [hstat2, hqueue2, hcntA2]
      omega
    have hcur2 : (step (step s .retry) (.run (.success d))).status.getD
        (countCompleted (step (step s .retry) (.run (.success d))).status) .pending
        = .generating := by
      rw [hstat2, hcntA2]
      exact getD_set_self _ _ _ _ hilen
    have hstflag2 : (step (step s .retry) (.run (.success d))).started.getD
        (countCompleted (step (step s .retry) (.run (.success d))).status) false = false := by
      rw [hstart2, hstat2, hcntA2]
      exact hstarted
    have e3 := step_run_generating_fresh (GenResult.success d) hip2 hq2 hlt2 hcur2 hstflag2
    -- stage 3: started flag raised
    have hstat3 : (step (step (step s .retry) (.run (.success d))) (.run (.success d))).status
        = s.status.set i ItemStatus.generating := by
      rw [e3]
      show (step (step s .retry) (.run (.success d))).status = _
      exact hstat2
    have hqueue3 : (step (step (step s .retry) (.run (.success d))) (.run (.success d))).queue
        = s.queue := by
      rw [e3]
      show (step (step s .retry) (.run (.success d))).queue = s.queue
      exact hqueue2
    have hstart3 : (step (step (step s .retry) (.run (.success d))) (.run (.success d))).started
        = s.started.set i true := by
      rw [e3]
      show (step (step s .retry) (.run (.success d))).started.set
        (countCompleted (step (step s .retry) (.run (.success d))).status) true = _
      rw [hstart2, hstat2, hcntA2]
    have hgen3 : (step (step (step s .retry) (.run (.success d))) (.run (.success d))).generated
        = s.generated := by
      rw [e3]
      show (step (step s .retry) (.run (.success d))).generated = s.generated
      exact hgen2
    have hip3 : (step (step (step s .retry) (.run (.success d))) (.run (.success d))).inProgress
        = true := by
      rw [e3]
      show (step (step s .retry) (.run (.success d))).inProgress = true
      exact hip2
    have hq3 : (step (step (step s .retry) (.run (.success d))) (.run (.success d))).queue
        ≠ [] := by
      rw [hqueue3]
      exact hq
    have hlt3 : countCompleted
          (step (step (step s .retry) (.run (.success d))) (.run (.success d))).status
        < (step (step (step s .retry) (.run (.success d))) (.run (.success d))).queue.length := by
      rw [hstat3, hqueue3, hcntA2]
      omega
    have hcur3 : (step (step (step s .retry) (.run (.success d))) (.run (.success d))).status.getD
        (countCompleted
          (step (step (step s .retry) (.run (.success d))) (.run (.success d))).status) .pending
        = .generating := by
      rw [hstat3, hcntA2]
      exact getD_set_self _ _ _ _ hilen
    have histart : i < s.started.length := by omega
    have hstflag3 : (step (step (step s .retry) (.run (.success d)))
          (.run (.success d))).started.getD
        (countCompleted
          (step (step (step s .retry) (.run (.success d))) (.run (.success d))).status) false
        = true := by
      rw [hstart3, hstat3, hcntA2]
      exact getD_set_self _ _ _ _ histart
    have e4 := step_run_generating_success d hip3 hq3 hlt3 hcur3 hstflag3
    -- stage 4: completed, one article appended
    constructor
    · rw [e4]
      show ((step (step (step s .retry) (.run (.success d))) (.run (.success d))).status.set
          (countCompleted
            (step (step (step s .retry) (.run (.success d))) (.run (.success d))).status)
          ItemStatus.completed).getD i .pending = .completed
      rw [hstat3, hcntA2, List.set_set]
      exact getD_set_self _ _ _ _ hilen
    · rw [e4]
      show ((step (step (step s .retry) (.run (.success d))) (.run (.success d))).generated
          ++ [mkArticle
                (step (step (step s .retry) (.run (.success d))) (.run (.success d))).generated.length
                ((step (step (step s .retry) (.run (.success d))) (.run (.success d))).queue.getD
                  (countCompleted
                    (step (step (step s .retry) (.run (.success d))) (.run (.success d))).status)
                  defaultOpp) d]).length = s.generated.length + 1
      rw [List.length_append, hgen3]
      rfl

/-- A reachable one-item state whose only item is in `error` status. -/
def c7_err : QState :=
  step (step (step (startBatch [defaultOpp] []) (.run (.failure "x"))) (.run (.failure "x")))
    (.run (.failure "x"))

theorem c7_err_reachable : Reaches (startBatch [defaultOpp] []) c7_err :=
  Relation.ReflTransGen.head ⟨.run (.failure "x"), rfl⟩
    (Relation.ReflTransGen.head ⟨.run (.failure "x"), rfl⟩
      (Relation.ReflTransGen.single ⟨.run (.failure "x"), rfl⟩))

theorem claim_C7_error_transitions_witness :
    (step c7_err .retry).status.getD 0 .pending = .pending
      ∧ (step c7_err .skip).status.getD 0 .pending = .skipped :=
  ⟨(claim_C7_error_transitions [defaultOpp] [] c7_err 0 c7_err_reachable (by rfl)).1,
   (claim_C7_error_transitions [defaultOpp] [] c7_err 0 c7_err_reachable (by rfl)).2.1⟩

end MSGsc
